import Mathlib

/-!
Verification of the `microbench` pipeline of ferrisbot-for-discord
(`src/commands/playground/microbench.rs`).

The development shallowly embeds:
* the statistics computed by the generated benchmark harness
  (`BENCH_FUNCTION`), with `f64` samples modelled as rationals;
* the dynamics of the generated harness (warm-up, timed measurement
  loop), with wall-clock time modelled by an explicit cost oracle giving
  the duration of each successive function call, and `Instant` reads as
  the accumulated elapsed time;
* the entry-point extractor `extract_pub_fn_names_from_user_code`, with
  the external `syn` parser modelled by its output (a structural tree);
* the driver-synthesis and request-building part of the `microbench`
  command, with the out-of-crate helpers (`parse_flags`,
  `hoise_crate_attributes`) taken as parameters / already-parsed values.
-/

set_option autoImplicit false

namespace Microbench

/-! ### Statistics of the generated harness (BENCH_FUNCTION, lines 39-51) -/

/-- The `CHUNK_SIZE` constant of `BENCH_FUNCTION`. -/
def CHUNK_SIZE : Nat := 1000

/-- Line 40: `let mean_time: f64 = chunk_times.iter().sum::<f64>() / chunk_times.len() as f64`. -/
def mean_time (chunk_times : List ℚ) : ℚ :=
  chunk_times.sum / (chunk_times.length : ℚ)

/-- The accumulation loop of `BENCH_FUNCTION` (lines 42-50): starting from
`sum_of_squared_deviations = 0.0` and `n = 0`, each sample `time` with
`time < mean_time * 3.0` adds `(time - mean_time).powi(2)` to the sum and
increments `n`; other samples are skipped. -/
def outlier_scan (m : ℚ) (chunk_times : List ℚ) : ℚ × Nat :=
  chunk_times.foldl
    (fun acc time => if time < m * 3 then (acc.1 + (time - m) ^ 2, acc.2 + 1) else acc)
    ((0 : ℚ), (0 : Nat))

/-- The samples surviving outlier filtering, as the spec describes them:
those strictly below `OUTLIER_FACTOR ×` the unfiltered mean. -/
def survivors (chunk_times : List ℚ) : List ℚ :=
  chunk_times.filter (fun time => time < mean_time chunk_times * 3)

/-- The quantity under the square root in
`let standard_deviation = f64::sqrt(sum_of_squared_deviations / n as f64)`. -/
def variance (chunk_times : List ℚ) : ℚ :=
  (outlier_scan (mean_time chunk_times) chunk_times).1 /
    ((outlier_scan (mean_time chunk_times) chunk_times).2 : ℚ)

/-! ### Dynamics of the generated harness (BENCH_FUNCTION, lines 16-37)

Wall-clock time is modelled by a cost oracle `cost : Nat → ℚ`: the `k`-th
function call performed by the harness (counting from 0 over the whole
run) takes `cost k` seconds.  `std::time::Instant::now()` reads the
accumulated elapsed time; time advances only through function calls.
The `while` loop is given explicit fuel, since the number of iterations
is bounded only by real time. -/

/-- The observable state of a harness run: elapsed time in seconds, the
global call counter, and the trace of function indices called so far. -/
structure BState where
  time : ℚ
  calls : Nat
  trace : List Nat
  deriving DecidableEq

/-- The loop `for _ in 0..k` of calls to the function with index `j`:
performs `k` successive calls, each advancing time by its oracle cost. -/
def doCalls (cost : Nat → ℚ) (j : Nat) : Nat → BState → BState
  | 0, s => s
  | k + 1, s => doCalls cost j k ⟨s.time + cost s.calls, s.calls + 1, s.trace ++ [j]⟩

/-- Total cost of `k` successive calls starting at global call counter `c`. -/
def batchSum (cost : Nat → ℚ) (c k : Nat) : ℚ :=
  ((List.range k).map (fun i => cost (c + i))).sum

/-- The warm-up loop (lines 20-24): every function, in order, is called
`CHUNK_SIZE` times with results discarded. -/
def warmupGo (cost : Nat → ℚ) : BState → List Nat → BState
  | s, [] => s
  | s, j :: rest => warmupGo cost (doCalls cost j CHUNK_SIZE s) rest

/-- Warm-up over the `n` registered functions `0, …, n-1`. -/
def warmup (cost : Nat → ℚ) (n : Nat) (s : BState) : BState :=
  warmupGo cost s (List.range n)

/-- One measurement round (lines 30-36) over the zipped list of
(function index, its sample list so far): for each pair in order, time a
batch of `CHUNK_SIZE` calls and push `batch_time / CHUNK_SIZE` onto the
sample list. -/
def roundGo (cost : Nat → ℚ) : BState → List (Nat × List ℚ) → BState × List (List ℚ)
  | s, [] => (s, [])
  | s, (j, ts) :: rest =>
    let s' := doCalls cost j CHUNK_SIZE s
    let step := roundGo cost s' rest
    (step.1, (ts ++ [(s'.time - s.time) / (CHUNK_SIZE : ℚ)]) :: step.2)

/-- Specification-side description of the sample lists of one round: entry by
entry, the old samples with one new sample appended, the new sample
being (total cost of the `CHUNK_SIZE`-call batch of that function) divided by
`CHUNK_SIZE`; batches consume the call counter left to right. -/
def roundSpec (cost : Nat → ℚ) (c : Nat) : List (Nat × List ℚ) → List (List ℚ)
  | [] => []
  | (_, ts) :: rest =>
    (ts ++ [batchSum cost c CHUNK_SIZE / (CHUNK_SIZE : ℚ)]) :: roundSpec cost (c + CHUNK_SIZE) rest

/-- One iteration body of the measurement loop:
`functions_chunk_times.iter_mut().zip(functions)` pairs each sample list
with its function, then `roundGo` runs the batches. -/
def bench_round (cost : Nat → ℚ) (n : Nat) (s : BState) (samples : List (List ℚ)) :
    BState × List (List ℚ) :=
  roundGo cost s ((List.range n).zip samples)

/-- The measurement loop (line 29):
`while (Instant::now() - start).as_secs() < 5`, with `as_secs`
truncating to whole seconds, i.e. the integer floor of the elapsed
time.  `fuel` bounds the number of iterations of the model. -/
def measLoop (cost : Nat → ℚ) (n : Nat) (start : ℚ) :
    Nat → BState → List (List ℚ) → BState × List (List ℚ)
  | 0, s, samples => (s, samples)
  | fuel + 1, s, samples =>
    if ⌊s.time - start⌋ < (5 : ℤ) then
      let r := bench_round cost n s samples
      measLoop cost n start fuel r.1 r.2
    else (s, samples)

/-- The whole `bench` harness over `n` registered functions: warm up,
initialise one empty sample list per function
(`functions.iter().map(|_| Vec::new())`), take `start`, run the
measurement loop. -/
def bench (cost : Nat → ℚ) (n fuel : Nat) : BState × List (List ℚ) :=
  let s1 := warmup cost n ⟨0, 0, []⟩
  measLoop cost n s1.time fuel s1 (List.replicate n ([] : List ℚ))

/-! ### The entry-point extractor (microbench.rs, lines 151-167)

The external `syn` crate is modelled by the shape of its output: a
parsed file is a list of top-level items, a function item carries its
visibility and its signature (identifier and number of declared
parameters).  `syn::parse_file` itself is an external library function
and is taken as a parameter `String → Option SynFile` (`none` models
`Err`). -/

/-- The `syn` visibility type `Visibility`. -/
inductive Visibility where
  | pub
  | restricted
  | inherited
  deriving DecidableEq

/-- The part of the `syn` signature type the extractor and the claims look at:
the identifier and the arity (`sig.inputs.len()`). -/
structure Signature where
  ident : String
  inputs : Nat
  deriving DecidableEq

/-- The `syn` item type, reduced to what distinguishes the extractor cases: a
function item (`Item::Fn`) with visibility and signature, a module item
holding nested items, or any other kind of item. -/
inductive Item where
  | fn (vis : Visibility) (sig : Signature)
  | mod (vis : Visibility) (items : List Item)
  | other

/-- The `syn` file type: the list of top-level items. -/
structure SynFile where
  items : List Item

/-- The function `extract_pub_fn_names_from_user_code` (lines 151-167): on parse
failure return `vec![]`; otherwise filter-map the top-level items,
keeping `sig.ident.to_string()` exactly for `Item::Fn` with
`Visibility::Public(_)`. -/
def extract_pub_fn_names_from_user_code
    (parse_file : String → Option SynFile) (code : String) : List String :=
  match parse_file code with
  | none => []
  | some file =>
    file.items.filterMap fun item =>
      match item with
      | Item.fn Visibility.pub sig => some sig.ident
      | _ => none

/-! ### Playground request types

Modelled from the spec: `api.rs` is not among the provided sources; the
wire contract of §6 gives
`request = \x7b code, channel, edition, crate_type ∈ \x7bbinary, library\x7d, mode ∈ \x7bdebug, release\x7d, tests : bool \x7d`
and §3 gives channel ∈ \x7bstable, beta, nightly\x7d.  The edition
member set is not enumerated by the spec; it is modelled as an opaque
string tag. -/

/-- Modelled from the spec: execution channel (§3 Configuration). -/
inductive Channel where
  | stable
  | beta
  | nightly
  deriving DecidableEq

/-- Modelled from the spec: language edition tag (§3), member set left
open, so an arbitrary string tag. -/
abbrev Edition := String

/-- Modelled from the spec: optimization mode (§6 wire contract). -/
inductive Mode where
  | debug
  | release
  deriving DecidableEq

/-- Modelled from the spec: crate type (§6 wire contract). -/
inductive CrateType where
  | binary
  | library
  deriving DecidableEq

/-- Modelled from the spec: the typed configuration produced by
`parse_flags` (§3 Configuration; `util.rs` is not among the provided
sources).  `microbench` reads `flags.channel` and `flags.edition`; the
`mode` and `warn` fields exist but are overridden / used only for
stderr formatting. -/
structure Flags where
  channel : Channel
  edition : Edition
  mode : Mode
  warn : Bool

/-- Modelled from the spec: the request payload of the §6 wire
contract, field for field. -/
structure PlaygroundRequest where
  code : String
  channel : Channel
  crate_type : CrateType
  edition : Edition
  mode : Mode
  tests : Bool

/-! ### Driver synthesis (microbench.rs, lines 15-60 and 86-92) -/

/-- The `BENCH_FUNCTION` source string (lines 15-60), verbatim; braces
are written with hex escapes. -/
def BENCH_FUNCTION : String := "
fn bench(functions: &[(&str, fn())]) \x7b
    const CHUNK_SIZE: usize = 1000;

    // Warm up
    for (_, function) in functions.iter() \x7b
        for _ in 0..CHUNK_SIZE \x7b
            (function)();
        \x7d
    \x7d

    let mut functions_chunk_times = functions.iter().map(|_| Vec::new()).collect::<Vec<_>>();

    let start = std::time::Instant::now();
    while (std::time::Instant::now() - start).as_secs() < 5 \x7b
        for (chunk_times, (_, function)) in functions_chunk_times.iter_mut().zip(functions) \x7b
            let start = std::time::Instant::now();
            for _ in 0..CHUNK_SIZE \x7b
                (function)();
            \x7d
            chunk_times.push((std::time::Instant::now() - start).as_secs_f64() / CHUNK_SIZE as f64);
        \x7d
    \x7d

    for (chunk_times, (function_name, _)) in functions_chunk_times.iter().zip(functions) \x7b
        let mean_time: f64 = chunk_times.iter().sum::<f64>() / chunk_times.len() as f64;

        let mut sum_of_squared_deviations = 0.0;
        let mut n = 0;
        for &time in chunk_times \x7b
            // Filter out outliers (there are some crazy outliers, I\x27ve checked)
            if time < mean_time * 3.0 \x7b
                sum_of_squared_deviations += (time - mean_time).powi(2);
                n += 1;
            \x7d
        \x7d
        let standard_deviation = f64::sqrt(sum_of_squared_deviations / n as f64);

        println!(
            \"\x7b\x7d: \x7b:.1\x7dns ± \x7b:.1\x7d\",
            function_name,
            mean_time * 1_000_000_000.0,
            standard_deviation * 1_000_000_000.0,
        );
    \x7d
\x7d"

/-- One registration line, as produced by
`writeln!(after_code, "(\"\x7bfunction_name\x7d\", \x7bfunction_name\x7d),")`:
the pair `("name", name),` followed by a newline. -/
def registration_line (function_name : String) : String :=
  "(\"" ++ function_name ++ "\", " ++ function_name ++ "),\n"

/-- The `for function_name in pub_fn_names` loop (lines 89-91): appends
one registration line per name, in list order. -/
def push_registrations (acc : String) : List String → String
  | [] => acc
  | function_name :: rest => push_registrations (acc ++ registration_line function_name) rest

/-- The full `after_code` string built in lines 87-92: `BENCH_FUNCTION`,
the `main` header, the registration lines, the closing footer. -/
def after_code (pub_fn_names : List String) : String :=
  push_registrations (BENCH_FUNCTION ++ "fn main() \x7b\nbench(&[") pub_fn_names ++ "]);\n\x7d\n"

/-! ### The microbench pipeline (microbench.rs, lines 64-121) -/

/-- Line 71: the convenience import inserted before the user code. -/
def after_crate_attrs : String := "#[allow(unused_imports)] use std::hint::black_box;\n"

/-- Line 76: reply when no public function was found. -/
def no_pub_fns_message : String :=
  "No public functions (`pub fn`) found for benchmarking :thinking:"

/-- Line 80: reply when exactly one public function was found. -/
def one_pub_fn_message : String :=
  "Please include multiple functions. Times are not comparable across runs"

/-- Line 118: the hint appended when the user code never mentions
`black_box`. -/
def black_box_hint_text : String :=
  "Hint: use the black_box function to prevent computations from being optimized out\n"

/-- Line 68: `user_code.contains("black_box")`, Rust substring search. -/
def contains_black_box (user_code : String) : Bool :=
  decide ("black_box".data <:+: user_code.data)

/-- The terminal observable action of one `microbench` invocation:
either a short-circuit reply (no request is ever built), or a request
sent to the playground together with the final warning text passed to
`send_reply`. -/
inductive PipelineAction where
  | say (msg : String)
  | execute (req : PlaygroundRequest) (warnings : String)

/-- The `microbench` command body (lines 64-121) as a function of the
external parser, the external directive hoister
(`hoise_crate_attributes`, from `util.rs`, taken as an opaque
parameter), the raw user code, and the already-parsed flags and flag
parse errors (`parse_flags` lives in `util.rs`).  The initial stub
message is not modelled; the result is the terminal action. -/
def microbench (parse_file : String → Option SynFile)
    (hoise_crate_attributes : String → String → String → String)
    (user_code : String) (flags : Flags) (flag_parse_errors : String) : PipelineAction :=
  let black_box_hint := !contains_black_box user_code
  let pub_fn_names := extract_pub_fn_names_from_user_code parse_file user_code
  match pub_fn_names.length with
  | 0 => PipelineAction.say no_pub_fns_message
  | 1 => PipelineAction.say one_pub_fn_message
  | _ + 2 =>
    let code := hoise_crate_attributes user_code after_crate_attrs (after_code pub_fn_names)
    let req : PlaygroundRequest :=
      { code := code
        channel := flags.channel
        crate_type := CrateType.binary
        edition := flags.edition
        mode := Mode.release
        tests := false }
    let errors :=
      if black_box_hint then flag_parse_errors ++ black_box_hint_text else flag_parse_errors
    PipelineAction.execute req errors

/-! ### Concrete fixtures used by witnesses and counterexamples -/

/-- A parsed file with two zero-argument public functions, as in the
help text example (`pub fn add`, `pub fn mul`). -/
def exFileTwo : SynFile :=
  ⟨[Item.fn Visibility.pub ⟨"add", 0⟩, Item.fn Visibility.pub ⟨"mul", 0⟩]⟩

/-- A parser that always succeeds with `exFileTwo`. -/
def exParse : String → Option SynFile := fun _ => some exFileTwo

/-- A parser that always fails, modelling unparsable input. -/
def exParseFail : String → Option SynFile := fun _ => none

/-- A parsed file with a nested public function (inside a module), a
private top-level function, and a top-level public function of arity 3. -/
def exFileNested : SynFile :=
  ⟨[Item.mod Visibility.pub [Item.fn Visibility.pub ⟨"inner", 0⟩],
    Item.fn Visibility.inherited ⟨"priv", 0⟩,
    Item.fn Visibility.pub ⟨"ok", 3⟩]⟩

/-- An arbitrary concrete hoister for witnesses. -/
def exHoise : String → String → String → String :=
  fun source prologue epilogue => prologue ++ source ++ epilogue

/-- Concrete flags whose caller-supplied mode is `debug`. -/
def exFlags : Flags := ⟨Channel.stable, "2021", Mode.debug, true⟩

/-! ## Theorems -/

/-! ### Shared helper lemmas -/

/-- The accumulation loop of the aggregation stage is the filter/map/sum
formula of the spec: the running `(sum_of_squared_deviations, n)` pair
ends at the sum of squared deviations (around `m`) of the samples
strictly below `m * 3`, paired with their count. -/
theorem outlier_scan_eq (m : ℚ) (l : List ℚ) :
    outlier_scan m l =
      (((l.filter (fun t => t < m * 3)).map (fun t => (t - m) ^ 2)).sum,
        (l.filter (fun t => t < m * 3)).length) := by
  have go : ∀ (l : List ℚ) (a : ℚ) (b : Nat),
      l.foldl (fun acc time =>
          if time < m * 3 then (acc.1 + (time - m) ^ 2, acc.2 + 1) else acc) (a, b) =
        (a + ((l.filter (fun t => t < m * 3)).map (fun t => (t - m) ^ 2)).sum,
          b + (l.filter (fun t => t < m * 3)).length) := by
    intro l
    induction l with
    | nil => intro a b; simp
    | cons t rest ih =>
      intro a b
      by_cases hc : t < m * 3
      · rw [List.foldl_cons, if_pos hc, ih, List.filter_cons_of_pos (by simpa using hc)]
        simp only [List.map_cons, List.sum_cons, List.length_cons, Prod.mk.injEq]
        exact ⟨by ring, by omega⟩
      · rw [List.foldl_cons, if_neg hc, ih, List.filter_cons_of_neg (by simpa using hc)]
  simpa [outlier_scan] using go l 0 0

/-- Membership in the extractor output, for successfully parsed
input: exactly the identifiers of top-level `pub fn` items. -/
theorem extract_mem_iff (parse_file : String → Option SynFile) (code : String)
    (f : SynFile) (hp : parse_file code = some f) (name : String) :
    name ∈ extract_pub_fn_names_from_user_code parse_file code ↔
      ∃ sig : Signature, Item.fn Visibility.pub sig ∈ f.items ∧ sig.ident = name := by
  unfold extract_pub_fn_names_from_user_code
  rw [hp]
  simp only [List.mem_filterMap]
  constructor
  · rintro ⟨item, hitem, heq⟩
    match item with
    | Item.fn Visibility.pub sig => exact ⟨sig, hitem, by simpa using heq⟩
    | Item.fn Visibility.restricted sig => simp at heq
    | Item.fn Visibility.inherited sig => simp at heq
    | Item.mod vis items => simp at heq
    | Item.other => simp at heq
  · rintro ⟨sig, hitem, heq⟩
    exact ⟨Item.fn Visibility.pub sig, hitem, by simpa using heq⟩

/-- When at least two names are extracted, `microbench` reaches the
execution client with exactly the request and warning text built in
lines 87-120. -/
theorem microbench_execute_shape
    (parse_file : String → Option SynFile)
    (hoise : String → String → String → String)
    (user_code : String) (flags : Flags) (flag_parse_errors : String) (k : Nat)
    (hlen : (extract_pub_fn_names_from_user_code parse_file user_code).length = k + 2) :
    microbench parse_file hoise user_code flags flag_parse_errors =
      PipelineAction.execute
        { code := hoise user_code after_crate_attrs
            (after_code (extract_pub_fn_names_from_user_code parse_file user_code))
          channel := flags.channel
          crate_type := CrateType.binary
          edition := flags.edition
          mode := Mode.release
          tests := false }
        (if !contains_black_box user_code then flag_parse_errors ++ black_box_hint_text
          else flag_parse_errors) := by
  rw [microbench, hlen]

/-- Unfolding `String.join` over a cons cell. -/
theorem join_cons (a : String) (l : List String) :
    String.join (a :: l) = a ++ String.join l := by
  have go : ∀ (l : List String) (x : String),
      List.foldl (fun r s => r ++ s) x l = x ++ List.foldl (fun r s => r ++ s) "" l := by
    intro l
    induction l with
    | nil => intro x; simp
    | cons b rest ih =>
      intro x
      rw [List.foldl_cons, List.foldl_cons, ih (x ++ b), ih ("" ++ b),
        String.append_assoc]
      simp
  simp only [String.join, List.foldl_cons]
  rw [go l ("" ++ a)]
  simp

/-- The registration loop appends, after the accumulator, exactly one
registration line per name, in list order. -/
theorem push_registrations_eq (names : List String) :
    ∀ acc : String,
      push_registrations acc names = acc ++ String.join (names.map registration_line) := by
  induction names with
  | nil => intro acc; simp [push_registrations, String.join]
  | cons name rest ih =>
    intro acc
    rw [push_registrations, ih, List.map_cons, join_cons, String.append_assoc]

/-! ### C1 -/

/-- C1: in the aggregation stage of the generated harness, for every
non-empty sample list the unfiltered arithmetic mean of all samples is
computed first; a sample survives outlier filtering exactly when it is
strictly less than 3 times that unfiltered mean; the reported standard
deviation is `sqrt((Σ over survivors of (sample - mean)²) / #survivors)`
with the original unfiltered mean; and on `[1, 1, 1, 1, 10]` the mean is
`2.8 = 14/5`, the sample `10` is discarded, and the deviation is
`1.8 = 9/5`. -/
theorem c1_outlier_statistics (l : List ℚ) (h : l ≠ []) :
    mean_time l = l.sum / (l.length : ℚ) ∧
    outlier_scan (mean_time l) l =
      (((survivors l).map (fun t => (t - mean_time l) ^ 2)).sum, (survivors l).length) ∧
    Real.sqrt ((variance l : ℝ)) =
      Real.sqrt ((((survivors l).map (fun t => (t - mean_time l) ^ 2)).sum /
        ((survivors l).length : ℚ) : ℚ)) ∧
    mean_time [1, 1, 1, 1, 10] = 14 / 5 ∧
    survivors [1, 1, 1, 1, 10] = [1, 1, 1, 1] ∧
    Real.sqrt ((variance [1, 1, 1, 1, 10] : ℝ)) = 9 / 5 := by
  have hscan := outlier_scan_eq (mean_time l) l
  refine ⟨rfl, hscan, ?_, ?_, ?_, ?_⟩
  · unfold variance
    rw [hscan]
    simp [survivors]
  · norm_num [mean_time]
  · norm_num [survivors, mean_time, List.filter]
  · have hv : variance [1, 1, 1, 1, 10] = 81 / 25 := by
      norm_num [variance, outlier_scan, mean_time, List.foldl]
    rw [hv]
    have hsq : ((81 / 25 : ℚ) : ℝ) = (9 / 5 : ℝ) ^ 2 := by push_cast; norm_num
    rw [hsq, Real.sqrt_sq (by norm_num)]

/-- C1 witness: the theorem applied to the non-empty sample list
`[1, 1, 1, 1, 10]`. -/
theorem c1_witness :
    ([1, 1, 1, 1, 10] : List ℚ) ≠ [] ∧
      Real.sqrt ((variance [1, 1, 1, 1, 10] : ℝ)) = 9 / 5 :=
  ⟨List.cons_ne_nil _ _,
    (c1_outlier_statistics [1, 1, 1, 1, 10] (List.cons_ne_nil _ _)).2.2.2.2.2⟩

/-! ### C2 -/

/-- C2 counterexample: the claim says a top-level public function with
one or more parameters never appears in the returned list, but for a
source parsing to a single top-level `pub fn f` of arity 1 the extractor
returns `["f"]` — the extractor never inspects `sig.inputs`. -/
theorem c2_counterexample :
    extract_pub_fn_names_from_user_code
      (fun _ => some ⟨[Item.fn Visibility.pub ⟨"f", 1⟩]⟩)
      "pub fn f(x: u32) \x7b\x7d" = ["f"] := rfl

/-- C2 amended: every name returned by the entry-point extractor is the
identifier of a top-level, publicly-visible function item of the parsed
file; parameter arity is not restricted. -/
theorem c2_amended_names_are_top_level_pub_fns
    (parse_file : String → Option SynFile) (code : String) (name : String)
    (h : name ∈ extract_pub_fn_names_from_user_code parse_file code) :
    ∃ f : SynFile, ∃ sig : Signature, parse_file code = some f ∧
      Item.fn Visibility.pub sig ∈ f.items ∧ sig.ident = name := by
  rcases hp : parse_file code with _ | f
  · rw [extract_pub_fn_names_from_user_code, hp] at h
    simp at h
  · rcases (extract_mem_iff parse_file code f hp name).mp h with ⟨sig, hmem, hid⟩
    exact ⟨f, sig, rfl, hmem, hid⟩

/-- C2 witness: the amended theorem applied to the two-function fixture
and the name `"add"`. -/
theorem c2_witness :
    "add" ∈ extract_pub_fn_names_from_user_code exParse "" ∧
      ∃ f : SynFile, ∃ sig : Signature, exParse "" = some f ∧
        Item.fn Visibility.pub sig ∈ f.items ∧ sig.ident = "add" :=
  have hmem : "add" ∈ extract_pub_fn_names_from_user_code exParse "" := by
    simp [extract_pub_fn_names_from_user_code, exParse, exFileTwo]
  ⟨hmem, c2_amended_names_are_top_level_pub_fns exParse "" "add" hmem⟩

/-! ### C3 -/

/-- C3: for every successfully parsed source, a name is in the
extractor output exactly when some top-level function item of the
file is publicly visible and bears that name — no condition on
parameter arity; and concretely, on a file with a `pub fn` nested in a
module, a private top-level `fn`, and a top-level `pub fn` of arity 3,
only the name of the latter is returned. -/
theorem c3_extractor_characterization
    (parse_file : String → Option SynFile) (code : String)
    (f : SynFile) (hp : parse_file code = some f) :
    (∀ name : String,
      name ∈ extract_pub_fn_names_from_user_code parse_file code ↔
        ∃ sig : Signature, Item.fn Visibility.pub sig ∈ f.items ∧ sig.ident = name) ∧
    extract_pub_fn_names_from_user_code (fun _ => some exFileNested) code = ["ok"] :=
  ⟨extract_mem_iff parse_file code f hp, rfl⟩

/-- C3 witness: the characterization applied to the two-function
fixture parser, instantiated at the name `"add"`. -/
theorem c3_witness :
    exParse "" = some exFileTwo ∧
      ("add" ∈ extract_pub_fn_names_from_user_code exParse "" ↔
        ∃ sig : Signature, Item.fn Visibility.pub sig ∈ exFileTwo.items ∧ sig.ident = "add") :=
  ⟨rfl, (c3_extractor_characterization exParse "" exFileTwo rfl).1 "add"⟩

/-! ### C8 -/

/-- C8: when structural parsing fails the extractor returns the empty
list (never an error), and the pipeline outcome is the same "no public
functions" short-circuit reply as for parsable input with zero eligible
functions — unparsable input is downstream-indistinguishable from it. -/
theorem c8_parse_failure_degrades
    (parse_file parse_file2 : String → Option SynFile)
    (hoise hoise2 : String → String → String → String)
    (code code2 : String) (flags : Flags) (flag_parse_errors : String)
    (h1 : parse_file code = none)
    (h2 : extract_pub_fn_names_from_user_code parse_file2 code2 = []) :
    extract_pub_fn_names_from_user_code parse_file code = [] ∧
    microbench parse_file hoise code flags flag_parse_errors =
      PipelineAction.say no_pub_fns_message ∧
    microbench parse_file2 hoise2 code2 flags flag_parse_errors =
      PipelineAction.say no_pub_fns_message := by
  have hext : extract_pub_fn_names_from_user_code parse_file code = [] := by
    rw [extract_pub_fn_names_from_user_code, h1]
  refine ⟨hext, ?_, ?_⟩
  · rw [microbench, hext]; rfl
  · rw [microbench, h2]; rfl

/-- C8 witness: a parser that always fails versus a parser that yields
a file with no items. -/
theorem c8_witness :
    exParseFail "x" = none ∧
      extract_pub_fn_names_from_user_code (fun _ => some ⟨[]⟩) "y" = [] ∧
      microbench exParseFail exHoise "x" exFlags "" =
        PipelineAction.say no_pub_fns_message ∧
      microbench (fun _ => some ⟨[]⟩) exHoise "y" exFlags "" =
        PipelineAction.say no_pub_fns_message :=
  ⟨rfl, rfl,
    (c8_parse_failure_degrades exParseFail (fun _ => some ⟨[]⟩) exHoise exHoise
      "x" "y" exFlags "" rfl rfl).2.1,
    (c8_parse_failure_degrades exParseFail (fun _ => some ⟨[]⟩) exHoise exHoise
      "x" "y" exFlags "" rfl rfl).2.2⟩

/-! ### C4 -/

/-- C4: whenever the extracted entry-point list has length 0 or 1, the
pipeline replies with the corresponding short-circuit message and never
reaches the execution stage: no request payload is built and nothing is
sent to the backend. -/
theorem c4_short_circuit
    (parse_file : String → Option SynFile)
    (hoise : String → String → String → String)
    (user_code : String) (flags : Flags) (flag_parse_errors : String)
    (h : (extract_pub_fn_names_from_user_code parse_file user_code).length ≤ 1) :
    microbench parse_file hoise user_code flags flag_parse_errors =
      PipelineAction.say
        (if (extract_pub_fn_names_from_user_code parse_file user_code).length = 0
          then no_pub_fns_message else one_pub_fn_message) ∧
    ∀ (req : PlaygroundRequest) (w : String),
      microbench parse_file hoise user_code flags flag_parse_errors ≠
        PipelineAction.execute req w := by
  have hsay : microbench parse_file hoise user_code flags flag_parse_errors =
      PipelineAction.say
        (if (extract_pub_fn_names_from_user_code parse_file user_code).length = 0
          then no_pub_fns_message else one_pub_fn_message) := by
    rcases hlen : (extract_pub_fn_names_from_user_code parse_file user_code).length with _ | k
    · rw [microbench, hlen]; simp
    · have hk : k = 0 := by omega
      subst hk
      rw [microbench, hlen]; simp
  exact ⟨hsay, fun req w hEq => by rw [hsay] at hEq; exact PipelineAction.noConfusion hEq⟩

/-- C4 witness: the failing parser yields zero entry points, so the
pipeline short-circuits with the "no public functions" reply. -/
theorem c4_witness :
    (extract_pub_fn_names_from_user_code exParseFail "x").length ≤ 1 ∧
      microbench exParseFail exHoise "x" exFlags "" =
        PipelineAction.say
          (if (extract_pub_fn_names_from_user_code exParseFail "x").length = 0
            then no_pub_fns_message else one_pub_fn_message) :=
  ⟨by decide, (c4_short_circuit exParseFail exHoise "x" exFlags "" (by decide)).1⟩

/-! ### C5 -/

/-- C5: for every name list with at least two elements, the synthesized
driver text is `BENCH_FUNCTION`, the `main` header, then exactly one
registration line `("name", name),⏎` per list element in exactly the
order of the list (`String.join` of the per-element map, so a repeated name
yields one line per occurrence), then the closing footer. -/
theorem c5_registration_order (names : List String) (h : 2 ≤ names.length) :
    after_code names =
      BENCH_FUNCTION ++ "fn main() \x7b\nbench(&[" ++
        String.join (names.map registration_line) ++ "]);\n\x7d\n" ∧
    (names.map registration_line).length = names.length :=
  ⟨by rw [after_code, push_registrations_eq names], List.length_map _ _⟩

/-- C5 witness: the driver text for the two-element list
`["add", "mul"]`. -/
theorem c5_witness :
    2 ≤ (["add", "mul"] : List String).length ∧
      after_code ["add", "mul"] =
        BENCH_FUNCTION ++ "fn main() \x7b\nbench(&[" ++
          String.join (["add", "mul"].map registration_line) ++ "]);\n\x7d\n" :=
  ⟨by decide, (c5_registration_order ["add", "mul"] (by decide)).1⟩

/-! ### C7 -/

/-- C7: every request that reaches the execution client carries
`mode = release` and `tests = false` regardless of the caller-supplied
flags, while `channel` and `edition` are taken from the parsed flags. -/
theorem c7_forced_release_mode
    (parse_file : String → Option SynFile)
    (hoise : String → String → String → String)
    (user_code : String) (flags : Flags) (flag_parse_errors : String)
    (h : 2 ≤ (extract_pub_fn_names_from_user_code parse_file user_code).length) :
    ∃ (req : PlaygroundRequest) (w : String),
      microbench parse_file hoise user_code flags flag_parse_errors =
        PipelineAction.execute req w ∧
      req.mode = Mode.release ∧ req.tests = false ∧
      req.channel = flags.channel ∧ req.edition = flags.edition := by
  obtain ⟨k, hk⟩ : ∃ k, (extract_pub_fn_names_from_user_code parse_file user_code).length =
      k + 2 := ⟨_, (Nat.sub_add_cancel h).symm⟩
  exact ⟨_, _, microbench_execute_shape parse_file hoise user_code flags flag_parse_errors
    k hk, rfl, rfl, rfl, rfl⟩

/-- C7 witness: with two extracted functions and caller flags asking
for `debug`, the request still carries `release` and `tests = false`. -/
theorem c7_witness :
    2 ≤ (extract_pub_fn_names_from_user_code exParse "c").length ∧
      ∃ (req : PlaygroundRequest) (w : String),
        microbench exParse exHoise "c" exFlags "" = PipelineAction.execute req w ∧
        req.mode = Mode.release ∧ req.tests = false ∧
        req.channel = exFlags.channel ∧ req.edition = exFlags.edition :=
  ⟨by decide, c7_forced_release_mode exParse exHoise "c" exFlags "" (by decide)⟩

/-! ### C9 -/

/-- C9: the black-box hint is appended to the warning text passed to
the reply exactly when the raw user code does not contain the substring
`black_box` (checked before synthesis on the raw text); when appended
it comes after the configuration-flag parse warnings, as the suffix of
`flag_parse_errors ++ hint`. -/
theorem c9_black_box_hint
    (parse_file : String → Option SynFile)
    (hoise : String → String → String → String)
    (user_code : String) (flags : Flags) (flag_parse_errors : String)
    (h : 2 ≤ (extract_pub_fn_names_from_user_code parse_file user_code).length) :
    (∃ req : PlaygroundRequest,
      microbench parse_file hoise user_code flags flag_parse_errors =
        PipelineAction.execute req
          (if !contains_black_box user_code then flag_parse_errors ++ black_box_hint_text
            else flag_parse_errors)) ∧
    ((if !contains_black_box user_code then flag_parse_errors ++ black_box_hint_text
        else flag_parse_errors) = flag_parse_errors ++ black_box_hint_text ↔
      contains_black_box user_code = false) ∧
    ((if !contains_black_box user_code then flag_parse_errors ++ black_box_hint_text
        else flag_parse_errors) = flag_parse_errors ↔
      contains_black_box user_code = true) := by
  obtain ⟨k, hk⟩ : ∃ k, (extract_pub_fn_names_from_user_code parse_file user_code).length =
      k + 2 := ⟨_, (Nat.sub_add_cancel h).symm⟩
  have hne : flag_parse_errors ++ black_box_hint_text ≠ flag_parse_errors := by
    intro hEq
    have hlen2 : (flag_parse_errors ++ black_box_hint_text).length =
        flag_parse_errors.length := by rw [hEq]
    rw [String.length_append] at hlen2
    have : black_box_hint_text.length = 0 := by omega
    revert this
    decide
  refine ⟨⟨_, microbench_execute_shape parse_file hoise user_code flags
    flag_parse_errors k hk⟩, ?_, ?_⟩
  · cases hc : contains_black_box user_code <;> simp [hc, hne, Ne.symm hne]
  · cases hc : contains_black_box user_code <;> simp [hc, hne, Ne.symm hne]

/-- C9 witness: two extracted functions, user code `"c"` which does not
contain `black_box`. -/
theorem c9_witness :
    2 ≤ (extract_pub_fn_names_from_user_code exParse "c").length ∧
      ((if !contains_black_box "c" then "" ++ black_box_hint_text else "") =
          "" ++ black_box_hint_text ↔ contains_black_box "c" = false) :=
  ⟨by decide, (c9_black_box_hint exParse exHoise "c" exFlags "" (by decide)).2.1⟩

/-! ### Harness-dynamics helper lemmas -/

/-- Splitting the first call off a batch cost. -/
theorem batchSum_succ (cost : Nat → ℚ) (c k : Nat) :
    batchSum cost c (k + 1) = cost c + batchSum cost (c + 1) k := by
  unfold batchSum
  rw [List.range_succ_eq_map, List.map_cons, List.sum_cons, List.map_map]
  have hc : ((fun i => cost (c + i)) ∘ Nat.succ) = fun i => cost (c + 1 + i) := by
    funext i
    exact congrArg cost (by omega)
  rw [hc, Nat.add_zero]

/-- Closed form of `doCalls`: `k` calls to function `j` advance time by
the batch cost, advance the call counter by `k`, and append `k` copies
of `j` to the trace. -/
theorem doCalls_eq (cost : Nat → ℚ) (j : Nat) :
    ∀ (k : Nat) (s : BState),
      doCalls cost j k s =
        ⟨s.time + batchSum cost s.calls k, s.calls + k, s.trace ++ List.replicate k j⟩ := by
  intro k
  induction k with
  | zero =>
    intro s
    cases s
    simp [doCalls, batchSum]
  | succ k ih =>
    intro s
    rw [doCalls, ih]
    simp only [BState.mk.injEq]
    refine ⟨?_, by omega, ?_⟩
    · rw [batchSum_succ]
      ring
    · rw [List.replicate_succ, List.append_assoc]
      rfl

/-- The trace of the warm-up loop: one `CHUNK_SIZE`-block of calls per
function, in list order, after whatever was already in the trace. -/
theorem warmupGo_trace (cost : Nat → ℚ) :
    ∀ (js : List Nat) (s : BState),
      (warmupGo cost s js).trace =
        s.trace ++ js.flatMap (fun j => List.replicate CHUNK_SIZE j) := by
  intro js
  induction js with
  | nil => intro s; simp [warmupGo]
  | cons j rest ih =>
    intro s
    rw [warmupGo, ih, doCalls_eq]
    simp [List.append_assoc]

/-- The measurement round agrees with its specification-side
description, and its trace is one `CHUNK_SIZE`-block per listed
function, in list order. -/
theorem roundGo_spec (cost : Nat → ℚ) :
    ∀ (ps : List (Nat × List ℚ)) (s : BState),
      (roundGo cost s ps).2 = roundSpec cost s.calls ps ∧
      (roundGo cost s ps).1.trace =
        s.trace ++ ps.flatMap (fun p => List.replicate CHUNK_SIZE p.1) := by
  intro ps
  induction ps with
  | nil => intro s; simp [roundGo, roundSpec]
  | cons p rest ih =>
    obtain ⟨j, ts⟩ := p
    intro s
    have hd := doCalls_eq cost j CHUNK_SIZE s
    obtain ⟨ih2, ih1⟩ := ih (doCalls cost j CHUNK_SIZE s)
    constructor
    · show (ts ++ [((doCalls cost j CHUNK_SIZE s).time - s.time) / (CHUNK_SIZE : ℚ)]) ::
        (roundGo cost (doCalls cost j CHUNK_SIZE s) rest).2 = _
      rw [ih2, roundSpec, hd]
      simp [add_sub_cancel_left]
    · show (roundGo cost (doCalls cost j CHUNK_SIZE s) rest).1.trace = _
      rw [ih1, hd]
      simp [List.append_assoc]

/-- Lengths of the sample lists after one specification-side round: each
grows by exactly one. -/
theorem roundSpec_map_length (cost : Nat → ℚ) :
    ∀ (ps : List (Nat × List ℚ)) (c : Nat),
      (roundSpec cost c ps).map List.length = ps.map (fun p => p.2.length + 1) := by
  intro ps
  induction ps with
  | nil => intro c; simp [roundSpec]
  | cons p rest ih =>
    obtain ⟨j, ts⟩ := p
    intro c
    rw [roundSpec]
    simp [ih]

/-- One `bench_round` on a well-formed sample table (one list per
function) grows every sample list by exactly one. -/
theorem bench_round_map_length (cost : Nat → ℚ) (n : Nat) (s : BState)
    (samples : List (List ℚ)) (h : samples.length = n) :
    (bench_round cost n s samples).2.map List.length =
      samples.map (fun ts => ts.length + 1) := by
  unfold bench_round
  rw [(roundGo_spec cost ((List.range n).zip samples) s).1, roundSpec_map_length]
  have hmap : (fun p : Nat × List ℚ => p.2.length + 1) =
      (fun ts : List ℚ => ts.length + 1) ∘ Prod.snd := rfl
  rw [hmap, ← List.map_map, List.map_snd_zip]
  rw [List.length_range, h]

/-- Length of the sample table after one `bench_round`. -/
theorem bench_round_length (cost : Nat → ℚ) (n : Nat) (s : BState)
    (samples : List (List ℚ)) (h : samples.length = n) :
    (bench_round cost n s samples).2.length = samples.length := by
  have := congrArg List.length (bench_round_map_length cost n s samples h)
  simpa using this

/-- Entry lengths after one `bench_round`: each in-range entry grows by
exactly one. -/
theorem bench_round_getD_length (cost : Nat → ℚ) (n : Nat) (s : BState)
    (samples : List (List ℚ)) (h : samples.length = n) (j : Nat) (hj : j < n) :
    (((bench_round cost n s samples).2.getD j []) : List ℚ).length =
      ((samples.getD j []) : List ℚ).length + 1 := by
  have hjs : j < samples.length := by omega
  have hjr : j < (bench_round cost n s samples).2.length := by
    rw [bench_round_length cost n s samples h]; omega
  have hq : ((bench_round cost n s samples).2.map List.length)[j]? =
      (samples.map (fun ts : List ℚ => ts.length + 1))[j]? := by
    rw [bench_round_map_length cost n s samples h]
  rw [List.getElem?_map, List.getElem?_map, List.getElem?_eq_getElem hjs,
    List.getElem?_eq_getElem hjr] at hq
  simp only [Option.map_some'] at hq
  rw [List.getD_eq_getElem _ _ hjr, List.getD_eq_getElem _ _ hjs]
  exact Option.some.inj hq

/-- The measurement loop never shrinks the sample table: its width is
preserved and the length of every entry is monotone. -/
theorem measLoop_getD_length (cost : Nat → ℚ) (n : Nat) (start : ℚ) :
    ∀ (fuel : Nat) (s : BState) (samples : List (List ℚ)), samples.length = n →
      ((measLoop cost n start fuel s samples).2.length = n ∧
        ∀ j : Nat, ((samples.getD j []) : List ℚ).length ≤
          (((measLoop cost n start fuel s samples).2.getD j []) : List ℚ).length) := by
  intro fuel
  induction fuel with
  | zero => intro s samples hlen; exact ⟨hlen, fun j => le_refl _⟩
  | succ fuel ih =>
    intro s samples hlen
    rw [measLoop]
    by_cases hcond : ⌊s.time - start⌋ < (5 : ℤ)
    · rw [if_pos hcond]
      have hrlen : (bench_round cost n s samples).2.length = n := by
        rw [bench_round_length cost n s samples hlen, hlen]
      obtain ⟨h1, h2⟩ := ih (bench_round cost n s samples).1 (bench_round cost n s samples).2 hrlen
      refine ⟨h1, fun j => ?_⟩
      refine le_trans ?_ (h2 j)
      by_cases hj : j < n
      · rw [bench_round_getD_length cost n s samples hlen j hj]
        omega
      · rw [List.getD_eq_default _ _ (by omega : samples.length ≤ j)]
        exact Nat.zero_le _
    · rw [if_neg hcond]
      exact ⟨hlen, fun j => le_refl _⟩

/-! ### C6 -/

/-- C6: the generated harness first calls every registered callable
exactly `CHUNK_SIZE = 1000` times with no sample recorded (the sample
table starts as `n` empty lists only after warm-up), then loops while
the truncated elapsed time since the start of the measurement phase is
below 5 seconds — truncation makes the guard equivalent to
`elapsed < 5` —, and each round times one `CHUNK_SIZE`-call batch per
callable in list order, appending `batch_time / CHUNK_SIZE` as one
sample to the list of that callable. -/
theorem c6_harness_phases (cost : Nat → ℚ) (n fuel : Nat) (start e : ℚ)
    (s : BState) (samples : List (List ℚ)) (ps : List (Nat × List ℚ)) :
    bench cost n fuel =
      measLoop cost n (warmup cost n ⟨0, 0, []⟩).time fuel (warmup cost n ⟨0, 0, []⟩)
        (List.replicate n ([] : List ℚ)) ∧
    (warmup cost n ⟨0, 0, []⟩).trace =
      (List.range n).flatMap (fun j => List.replicate CHUNK_SIZE j) ∧
    measLoop cost n start (fuel + 1) s samples =
      (if ⌊s.time - start⌋ < (5 : ℤ) then
        measLoop cost n start fuel (bench_round cost n s samples).1
          (bench_round cost n s samples).2
      else (s, samples)) ∧
    (⌊e⌋ < (5 : ℤ) ↔ e < 5) ∧
    (roundGo cost s ps).2 = roundSpec cost s.calls ps ∧
    (roundGo cost s ps).1.trace =
      s.trace ++ ps.flatMap (fun p => List.replicate CHUNK_SIZE p.1) := by
  refine ⟨rfl, ?_, rfl, ?_, (roundGo_spec cost ps s).1, (roundGo_spec cost ps s).2⟩
  · rw [warmup, warmupGo_trace]
    rfl
  · rw [Int.floor_lt]
    norm_num

/-! ### C10 -/

/-- A uniform lower bound on the elements of a list bounds its sum. -/
theorem mul_length_le_sum (c : ℚ) :
    ∀ l : List ℚ, (∀ x ∈ l, c ≤ x) → c * (l.length : ℚ) ≤ l.sum := by
  intro l
  induction l with
  | nil => intro _; simp
  | cons x rest ih =>
    intro h
    have hx : c ≤ x := h x (List.mem_cons_self x rest)
    have hr := ih fun y hy => h y (List.mem_cons_of_mem x hy)
    rw [List.sum_cons, List.length_cons]
    push_cast
    nlinarith [hx, hr]

/-- If the samples are nonnegative and one is strictly positive, at
least one sample survives the outlier filter, so the
standard-deviation divisor `n` is nonzero. -/
theorem surviving_count_pos (l : List ℚ)
    (h0 : ∀ x ∈ l, 0 ≤ x) (h1 : ∃ x ∈ l, 0 < x) :
    0 < (outlier_scan (mean_time l) l).2 := by
  rw [outlier_scan_eq]
  rcases h1 with ⟨x, hx, hxpos⟩
  have hlenpos : 0 < l.length := List.length_pos.mpr (by rintro rfl; simp at hx)
  have hsum : 0 < l.sum := lt_of_lt_of_le hxpos (List.single_le_sum h0 x hx)
  have hm : 0 < mean_time l := by
    rw [mean_time]
    exact div_pos hsum (by exact_mod_cast hlenpos)
  by_contra hcon
  have hnil : l.filter (fun t => t < mean_time l * 3) = [] :=
    List.length_eq_zero.mp (by omega)
  have hge : ∀ a ∈ l, mean_time l * 3 ≤ a := by
    intro a ha
    have := List.filter_eq_nil_iff.mp hnil a ha
    simpa using this
  have hbound := mul_length_le_sum (mean_time l * 3) l hge
  have hsum_eq : l.sum = mean_time l * (l.length : ℚ) := by
    rw [mean_time]
    field_simp
  have hlenq : (0 : ℚ) < (l.length : ℚ) := by exact_mod_cast hlenpos
  nlinarith [hbound, hsum_eq, hm, hlenq]

/-- If every sample is zero, every sample is filtered out: the
surviving count is `0` (and the deviation divisor vanishes). -/
theorem surviving_count_zero (z : List ℚ) (hz : ∀ x ∈ z, x = 0) :
    (outlier_scan (mean_time z) z).2 = 0 := by
  rw [outlier_scan_eq]
  have hm : mean_time z = 0 := by
    rw [mean_time, List.sum_eq_zero hz]
    simp
  simp only [List.length_eq_zero, List.filter_eq_nil_iff]
  intro a ha
  rw [hz a ha, hm]
  norm_num

/-- C10: the aggregation divisions are guarded as claimed.  The mean
divisor is nonzero because the loop guard is checked with elapsed time
`0`, so at least one round runs before the loop can exit and every
sample list is non-empty; whenever some sample is strictly positive
(all being nonnegative), at least one sample survives the filter, so
the deviation divisor `n` is nonzero; and when every sample is zero
all are filtered out, leaving `n = 0` (a vanishing divisor, `0/0`). -/
theorem c10_division_guards (cost : Nat → ℚ) (n fuel j : Nat) (l z : List ℚ)
    (hj : j < n)
    (hl0 : ∀ x ∈ l, 0 ≤ x) (hl1 : ∃ x ∈ l, 0 < x)
    (hz : ∀ x ∈ z, x = 0) :
    0 < ((((bench cost n (fuel + 1)).2).getD j []) : List ℚ).length ∧
    0 < (outlier_scan (mean_time l) l).2 ∧
    (outlier_scan (mean_time z) z).2 = 0 := by
  refine ⟨?_, surviving_count_pos l hl0 hl1, surviving_count_zero z hz⟩
  have hstart : ⌊(warmup cost n ⟨0, 0, []⟩).time - (warmup cost n ⟨0, 0, []⟩).time⌋ <
      (5 : ℤ) := by
    rw [sub_self]
    norm_num
  have hbench : bench cost n (fuel + 1) =
      measLoop cost n (warmup cost n ⟨0, 0, []⟩).time fuel
        (bench_round cost n (warmup cost n ⟨0, 0, []⟩) (List.replicate n [])).1
        (bench_round cost n (warmup cost n ⟨0, 0, []⟩) (List.replicate n [])).2 := by
    rw [bench, measLoop, if_pos hstart]
  have hreplen : (List.replicate n ([] : List ℚ)).length = n := List.length_replicate n []
  have hrlen : (bench_round cost n (warmup cost n ⟨0, 0, []⟩) (List.replicate n [])).2.length =
      n := by
    rw [bench_round_length cost n _ _ hreplen, hreplen]
  obtain ⟨-, hmono⟩ := measLoop_getD_length cost n (warmup cost n ⟨0, 0, []⟩).time fuel
    (bench_round cost n (warmup cost n ⟨0, 0, []⟩) (List.replicate n [])).1
    (bench_round cost n (warmup cost n ⟨0, 0, []⟩) (List.replicate n [])).2 hrlen
  have hone : ((((bench_round cost n (warmup cost n ⟨0, 0, []⟩)
      (List.replicate n [])).2).getD j []) : List ℚ).length =
      (((List.replicate n ([] : List ℚ)).getD j []) : List ℚ).length + 1 :=
    bench_round_getD_length cost n _ _ hreplen j hj
  rw [hbench]
  have := hmono j
  omega

/-- C10 witness: one function, cost oracle constantly 1, fuel 1, the
positive sample list `[1]` and the all-zero sample list `[0]`. -/
theorem c10_witness :
    (0 : Nat) < 1 ∧
      0 < ((((bench (fun _ => 1) 1 (0 + 1)).2).getD 0 []) : List ℚ).length ∧
      0 < (outlier_scan (mean_time [1]) [1]).2 ∧
      (outlier_scan (mean_time [0]) [0]).2 = 0 :=
  ⟨by decide,
    c10_division_guards (fun _ => 1) 1 0 0 [1] [0] (by decide)
      (by intro x hx; rw [List.mem_singleton] at hx; rw [hx]; norm_num)
      (⟨1, List.mem_singleton.mpr rfl, by norm_num⟩)
      (by intro x hx; rw [List.mem_singleton] at hx; exact hx)⟩

end Microbench
